import Mathlib

/-!
# Verification of the similarity & risk-scoring engine

Shallow embedding of the core of the `code-guard-nexus` backend:

* `backend/app/services/winnowing.py` — the fingerprint engine
  (`WinnowingService`): `preprocess`, `get_kgrams`, `hash_kgrams`,
  `winnow`, `get_fingerprints`, `compute_similarity`.
* `backend/app/services/plagiarism_service.py` — the analysis
  orchestrator (`PlagiarismService.run_assignment_analysis`,
  `PlagiarismService._get_risk_level`).
* `backend/app/services/advanced_ai_detector.py` — the heuristic
  authorship classifier (`AdvancedAIDetector.detect`, score/confidence
  combination tail).

Python strings are modelled as `List Char` (Python indexes by code
point), Python floats as `ℚ` (every constant in the scoring code is an
exact decimal), Python sets of ints as `Finset ℕ`, and fallible calls
(file reads, DB writes, the external model) as `Option`/success flags
supplied by an environment record.
-/

namespace CodeGuard

/-! ## Fingerprint engine (`winnowing.py`) -/

namespace WinnowingService

/-- `re.sub(r'#.*', '', text)`: from each `#` drop up to (not
including) the next newline, since `.` does not match `\n`. The Bool
state is "currently inside a `#` comment". -/
def stripHashAux : Bool → List Char → List Char
  | _, [] => []
  | true, c :: rest =>
    if c = '\n' then c :: stripHashAux false rest
    else stripHashAux true rest
  | false, c :: rest =>
    if c = '#' then stripHashAux true rest
    else c :: stripHashAux false rest

def stripHash (l : List Char) : List Char := stripHashAux false l

/-- `re.sub(r'//.*', '', text)`: from each `//` drop up to the next
newline. -/
def stripSlashSlashAux : Bool → List Char → List Char
  | _, [] => []
  | true, c :: rest =>
    if c = '\n' then c :: stripSlashSlashAux false rest
    else stripSlashSlashAux true rest
  | false, '/' :: '/' :: rest => stripSlashSlashAux true rest
  | false, c :: rest => c :: stripSlashSlashAux false rest

def stripSlashSlash (l : List Char) : List Char := stripSlashSlashAux false l

/-- `re.sub(r'/\*.*?\*/', '', text, flags=re.DOTALL)`: non-greedy,
left-to-right removal of `/* ... */` spans.  While inside a span the
accumulator holds the consumed characters in reverse; if the input ends
with the span still open, the `/*` had no closing `*/`, the regex
leaves that text unchanged, and no later span can match (its delimiters
would both lie after this point), so the pending text is replayed. -/
def stripBlockAux : Option (List Char) → List Char → List Char
  | none, [] => []
  | none, '/' :: '*' :: rest => stripBlockAux (some ['*', '/']) rest
  | none, c :: rest => c :: stripBlockAux none rest
  | some _acc, '*' :: '/' :: rest => stripBlockAux none rest
  | some acc, c :: rest => stripBlockAux (some (c :: acc)) rest
  | some acc, [] => acc.reverse

def stripBlock (l : List Char) : List Char := stripBlockAux none l

/-- `re.sub(r'""".*?"""', '', text, flags=re.DOTALL)` (and the `'''`
variant): non-greedy left-to-right removal of triple-quoted spans, with
the same replay rule for an unclosed opener as `stripBlockAux`. -/
def stripTripleAux (q : Char) : Option (List Char) → List Char → List Char
  | none, a :: b :: c :: rest =>
    if a = q ∧ b = q ∧ c = q then stripTripleAux q (some [c, b, a]) rest
    else a :: stripTripleAux q none (b :: c :: rest)
  | none, l => l
  | some acc, a :: b :: c :: rest =>
    if a = q ∧ b = q ∧ c = q then stripTripleAux q none rest
    else stripTripleAux q (some (a :: acc)) (b :: c :: rest)
  | some acc, l => acc.reverse ++ l

def stripTriple (q : Char) (l : List Char) : List Char := stripTripleAux q none l

/-- Python `\s` for the ASCII range: space, tab, newline, carriage
return, vertical tab, form feed. -/
def pyIsSpace (c : Char) : Bool :=
  c = ' ' ∨ c = '\t' ∨ c = '\n' ∨ c = '\r' ∨ c = '\x0b' ∨ c = '\x0c'

/-- `WinnowingService.preprocess`: strip `#`, `//`, `/* */`, `"""` and
`'''` comment spans in source order, lowercase, and remove all
whitespace (`re.sub(r'\s+', '', ...)` deletes every whitespace char).
Case mapping and the whitespace class are modelled for the ASCII range;
every concrete input used below is ASCII. -/
def preprocess (text : List Char) : List Char :=
  ((stripTriple '\'' (stripTriple '"' (stripBlock (stripSlashSlash (stripHash text))))).map
    Char.toLower).filter (fun c => ¬ pyIsSpace c)

/-- `WinnowingService.get_kgrams`: all contiguous length-`k` windows;
`[text]` when the text is shorter than `k` but non-empty; `[]` on empty
text. -/
def get_kgrams (k : ℕ) (text : List Char) : List (List Char) :=
  if text.length < k then
    if text = [] then [] else [text]
  else
    (List.range (text.length - k + 1)).map (fun i => (text.drop i).take k)

/-- Modelled from the spec: the per-k-gram hash (`hashlib.md5`
hex-truncated to 32 bits in the source) is an external library
primitive; the spec requires only a deterministic fixed-width unsigned
hash with best-effort collision resistance, so it is modelled as a
fixed deterministic 32-bit polynomial hash of the character sequence.
Every claim proved below holds for an arbitrary deterministic hash. -/
def md5h (s : List Char) : ℕ :=
  s.foldl (fun h c => (h * 131 + c.toNat) % 4294967296) 5381

/-- `WinnowingService.hash_kgrams`. -/
def hash_kgrams (kgrams : List (List Char)) : List ℕ :=
  kgrams.map md5h

/-- Python `min` on a non-empty list (`0` on the empty list, where the
source would raise). -/
def listMin : List ℕ → ℕ
  | [] => 0
  | x :: xs => xs.foldl min x

/-- `WinnowingService.winnow`: empty input gives the empty set; a
sequence shorter than the window gives the singleton of the global
minimum; otherwise the distinct minima of all width-`w` windows. -/
def winnow (w : ℕ) (hashes : List ℕ) : Finset ℕ :=
  if hashes = [] then ∅
  else if hashes.length < w then {listMin hashes}
  else
    ((List.range (hashes.length - w + 1)).map
      (fun i => listMin ((hashes.drop i).take w))).toFinset

/-- `WinnowingService.get_fingerprints`: preprocess, k-gram, hash,
winnow; the empty canonical text gives the empty set. -/
def get_fingerprints (k w : ℕ) (text : List Char) : Finset ℕ :=
  if preprocess text = [] then ∅
  else winnow w (hash_kgrams (get_kgrams k (preprocess text)))

/-- `WinnowingService.compute_similarity`: Jaccard index, `0` when
either set is empty. -/
def compute_similarity (f1 f2 : Finset ℕ) : ℚ :=
  if f1 = ∅ ∨ f2 = ∅ then 0
  else ((f1 ∩ f2).card : ℚ) / ((f1 ∪ f2).card : ℚ)

/-- The `k` of the module-level `winnowing_service = WinnowingService()`
instance. -/
def default_k : ℕ := 15

/-- The `w` of the module-level instance. -/
def default_w : ℕ := 10

/-! ### Helper lemmas about `listMin`, `winnow` and `get_kgrams` -/

theorem foldl_min_le_init (xs : List ℕ) : ∀ a : ℕ, xs.foldl min a ≤ a := by
  induction xs with
  | nil => intro a; simp
  | cons b xs ih =>
    intro a
    calc (b :: xs).foldl min a = xs.foldl min (min a b) := by simp
    _ ≤ min a b := ih (min a b)
    _ ≤ a := min_le_left a b

theorem foldl_min_mem (xs : List ℕ) : ∀ a : ℕ, xs.foldl min a ∈ a :: xs := by
  induction xs with
  | nil => intro a; simp
  | cons b xs ih =>
    intro a
    have h := ih (min a b)
    have : min a b = a ∨ min a b = b := min_choice a b
    simp only [List.foldl_cons]
    rcases List.mem_cons.mp h with h1 | h1
    · rcases this with h2 | h2
      · exact List.mem_cons.mpr (Or.inl (h1.trans h2))
      · exact List.mem_cons.mpr (Or.inr (by rw [h1, h2]; simp))
    · exact List.mem_cons.mpr (Or.inr (List.mem_cons.mpr (Or.inr h1)))

theorem foldl_min_le (xs : List ℕ) :
    ∀ a y : ℕ, y ∈ a :: xs → xs.foldl min a ≤ y := by
  induction xs with
  | nil => intro a y hy; simp at hy; simp [hy]
  | cons b xs ih =>
    intro a y hy
    simp only [List.foldl_cons]
    rcases List.mem_cons.mp hy with h1 | h1
    · subst h1
      exact (foldl_min_le_init xs (min y b)).trans (min_le_left y b)
    · rcases List.mem_cons.mp h1 with h2 | h2
      · subst h2
        exact (foldl_min_le_init xs (min a y)).trans (min_le_right a y)
      · exact ih (min a b) y (List.mem_cons.mpr (Or.inr h2))

theorem listMin_mem (l : List ℕ) (h : l ≠ []) : listMin l ∈ l := by
  match l, h with
  | x :: xs, _ => exact foldl_min_mem xs x

theorem listMin_le (l : List ℕ) (y : ℕ) (hy : y ∈ l) : listMin l ≤ y := by
  match l, hy with
  | x :: xs, hy => exact foldl_min_le xs x y hy

theorem winnow_nonempty (w : ℕ) (hashes : List ℕ) (h : hashes ≠ []) :
    winnow w hashes ≠ ∅ := by
  unfold winnow
  rw [if_neg h]
  split
  · simp
  · rename_i hlen
    intro hemp
    have h1 : 1 ≤ hashes.length := List.length_pos.mpr h
    have : listMin ((hashes.drop 0).take w) ∈
        ((List.range (hashes.length - w + 1)).map
          (fun i => listMin ((hashes.drop i).take w))).toFinset := by
      rw [List.mem_toFinset, List.mem_map]
      exact ⟨0, by simp [List.mem_range], rfl⟩
    rw [hemp] at this
    exact absurd this (Finset.not_mem_empty _)

theorem get_kgrams_nonempty (k : ℕ) (text : List Char) (h : text ≠ []) :
    get_kgrams k text ≠ [] := by
  unfold get_kgrams
  split
  · simp [h]
  · rename_i hlen
    simp only [ne_eq, List.map_eq_nil_iff, List.range_eq_nil]
    omega

theorem get_fingerprints_nonempty (k w : ℕ) (text : List Char)
    (h : preprocess text ≠ []) : get_fingerprints k w text ≠ ∅ := by
  unfold get_fingerprints
  rw [if_neg h]
  apply winnow_nonempty
  simp only [hash_kgrams, ne_eq, List.map_eq_nil_iff]
  exact get_kgrams_nonempty k (preprocess text) h

/-! ### Helper lemmas about `compute_similarity` -/

theorem compute_similarity_comm (A B : Finset ℕ) :
    compute_similarity A B = compute_similarity B A := by
  unfold compute_similarity
  by_cases hE : A = ∅ ∨ B = ∅
  · rw [if_pos hE, if_pos hE.symm]
  · rw [if_neg hE, if_neg (fun h => hE h.symm)]
    rw [Finset.inter_comm, Finset.union_comm]

theorem compute_similarity_nonneg (A B : Finset ℕ) :
    0 ≤ compute_similarity A B := by
  unfold compute_similarity
  split
  · norm_num
  · positivity

theorem compute_similarity_le_one (A B : Finset ℕ) :
    compute_similarity A B ≤ 1 := by
  unfold compute_similarity
  split
  · norm_num
  · rename_i hne
    push_neg at hne
    have hA : A.Nonempty := Finset.nonempty_iff_ne_empty.mpr hne.1
    have hcard : 0 < (A ∪ B).card :=
      Finset.card_pos.mpr (hA.mono Finset.subset_union_left)
    rw [div_le_one (by exact_mod_cast hcard)]
    exact_mod_cast Finset.card_le_card
      (Finset.inter_subset_union (s := A) (t := B))

theorem compute_similarity_of_empty (A B : Finset ℕ) (h : A = ∅ ∨ B = ∅) :
    compute_similarity A B = 0 := by
  unfold compute_similarity
  rw [if_pos h]

theorem compute_similarity_eq_one_iff (A B : Finset ℕ) :
    compute_similarity A B = 1 ↔ A = B ∧ A ≠ ∅ := by
  constructor
  · intro h
    unfold compute_similarity at h
    split at h
    · norm_num at h
    · rename_i hne
      push_neg at hne
      have hA : A.Nonempty := Finset.nonempty_iff_ne_empty.mpr hne.1
      have hcard : 0 < (A ∪ B).card :=
        Finset.card_pos.mpr (hA.mono Finset.subset_union_left)
      have hcc : ((A ∩ B).card : ℚ) = ((A ∪ B).card : ℚ) := by
        field_simp at h
        exact_mod_cast h
      have hcards : (A ∩ B).card = (A ∪ B).card := by exact_mod_cast hcc
      have heq : A ∩ B = A ∪ B :=
        Finset.eq_of_subset_of_card_le (Finset.inter_subset_union) hcards.ge
      have hAB : A = B := by
        apply Finset.Subset.antisymm
        · intro x hx
          have : x ∈ A ∩ B := heq ▸ Finset.mem_union_left B hx
          exact (Finset.mem_inter.mp this).2
        · intro x hx
          have : x ∈ A ∩ B := heq ▸ Finset.mem_union_right A hx
          exact (Finset.mem_inter.mp this).1
      exact ⟨hAB, hne.1⟩
  · rintro ⟨hAB, hA⟩
    subst hAB
    unfold compute_similarity
    rw [if_neg (by simp [hA])]
    rw [Finset.inter_self, Finset.union_self]
    have : 0 < (A.card : ℚ) := by
      exact_mod_cast Finset.card_pos.mpr (Finset.nonempty_iff_ne_empty.mpr hA)
    field_simp

end WinnowingService

/-! ## Claims C6–C9: the fingerprint engine -/

open WinnowingService

/-- **C6.** `compute_similarity` is symmetric, always lands in `[0,1]`,
is `0` whenever either fingerprint set is empty, and equals `1` exactly
when the two sets are identical and non-empty (it is the Jaccard index
`|A∩B|/|A∪B|`). -/
theorem C6_compute_similarity (A B : Finset ℕ) :
    compute_similarity A B = compute_similarity B A ∧
    0 ≤ compute_similarity A B ∧ compute_similarity A B ≤ 1 ∧
    ((A = ∅ ∨ B = ∅) → compute_similarity A B = 0) ∧
    (compute_similarity A B = 1 ↔ A = B ∧ A ≠ ∅) :=
  ⟨compute_similarity_comm A B, compute_similarity_nonneg A B,
   compute_similarity_le_one A B, compute_similarity_of_empty A B,
   compute_similarity_eq_one_iff A B⟩

/-- Witness for C6 at a concrete input: `{1}` against itself gives `1`
(via the iff component, whose hypotheses are discharged concretely). -/
theorem C6_compute_similarity_witness :
    compute_similarity {1} {1} = 1 :=
  (C6_compute_similarity {1} {1}).2.2.2.2.mpr ⟨rfl, by decide⟩

/-- **C7 counterexample.** Two texts that canonicalize to the *empty*
string (a `#` comment and a `//` comment) have equal canonical forms
and equal (empty) fingerprint sets, but their similarity is `0`, not
`1.0`: the claim fails on texts whose canonical form is empty. -/
theorem C7_counterexample :
    preprocess ['#', 'a'] = preprocess ['/', '/', 'b'] ∧
    compute_similarity
      (get_fingerprints default_k default_w ['#', 'a'])
      (get_fingerprints default_k default_w ['/', '/', 'b']) = 0 ∧
    (0 : ℚ) ≠ 1 :=
  ⟨by decide, by decide, by norm_num⟩

/-- **C7 (amended).** Texts with equal canonical forms always get
identical fingerprint sets; and whenever the shared canonical form is
non-empty, `compute_similarity` on the two fingerprint sets is `1`. -/
theorem C7_fingerprints_of_equal_canonical (k w : ℕ) (t1 t2 : List Char)
    (h : preprocess t1 = preprocess t2) :
    get_fingerprints k w t1 = get_fingerprints k w t2 ∧
    (preprocess t1 ≠ [] →
      compute_similarity (get_fingerprints k w t1) (get_fingerprints k w t2) = 1) := by
  have hfp : get_fingerprints k w t1 = get_fingerprints k w t2 := by
    unfold get_fingerprints
    rw [h]
  refine ⟨hfp, fun hne => ?_⟩
  rw [← hfp]
  exact (compute_similarity_eq_one_iff _ _).mpr
    ⟨rfl, get_fingerprints_nonempty k w t1 hne⟩

/-- Witness for C7 (amended): the one-character text `a` compared with
itself. -/
theorem C7_fingerprints_witness :
    compute_similarity
      (get_fingerprints default_k default_w ['a'])
      (get_fingerprints default_k default_w ['a']) = 1 :=
  (C7_fingerprints_of_equal_canonical default_k default_w ['a'] ['a'] rfl).2
    (by decide)

/-- **C8.** `winnow`: on a non-empty sequence shorter than the window
the result is the singleton of the global minimum (`listMin` is a
member of and a lower bound of the list); on a sequence at least as
long as the window, membership in the result is exactly being the
minimum of one of the width-`w` sliding windows; and
`winnow 4 [10,5,20,2,8,15] = {2}`. -/
theorem C8_winnow (w : ℕ) (hashes : List ℕ) :
    (hashes ≠ [] → hashes.length < w → winnow w hashes = {listMin hashes}) ∧
    (hashes ≠ [] → listMin hashes ∈ hashes ∧ ∀ y ∈ hashes, listMin hashes ≤ y) ∧
    (hashes ≠ [] → w ≤ hashes.length →
      ∀ x, x ∈ winnow w hashes ↔
        ∃ i, i ≤ hashes.length - w ∧ x = listMin ((hashes.drop i).take w)) ∧
    winnow 4 [10, 5, 20, 2, 8, 15] = {2} := by
  refine ⟨?_, ?_, ?_, by decide⟩
  · intro hne hlen
    unfold winnow
    rw [if_neg hne, if_pos hlen]
  · intro hne
    exact ⟨listMin_mem hashes hne, fun y hy => listMin_le hashes y hy⟩
  · intro hne hlen x
    unfold winnow
    rw [if_neg hne, if_neg (by omega)]
    rw [List.mem_toFinset, List.mem_map]
    constructor
    · rintro ⟨i, hi, hx⟩
      rw [List.mem_range] at hi
      exact ⟨i, by omega, hx.symm⟩
    · rintro ⟨i, hi, hx⟩
      exact ⟨i, List.mem_range.mpr (by omega), hx.symm⟩

/-- Witness for C8: `[5]` is shorter than window `4`, so the result is
the singleton of its global minimum. -/
theorem C8_winnow_witness : winnow 4 [5] = {listMin [5]} :=
  (C8_winnow 4 [5]).1 (by decide) (by decide)

/-- **C9.** `get_kgrams`: the empty text gives the empty sequence; a
non-empty text shorter than `k` gives the single element equal to the
whole text; otherwise the result lists, in order, every contiguous
length-`k` window of the text. -/
theorem C9_get_kgrams (k : ℕ) (text : List Char) :
    (1 ≤ k → text = [] → get_kgrams k text = []) ∧
    (text ≠ [] → text.length < k → get_kgrams k text = [text]) ∧
    (k ≤ text.length →
      (get_kgrams k text).length = text.length - k + 1 ∧
      ∀ i, i < text.length - k + 1 →
        (get_kgrams k text).get? i = some ((text.drop i).take k) ∧
        ((text.drop i).take k).length = k) := by
  refine ⟨?_, ?_, ?_⟩
  · intro hk h
    subst h
    unfold get_kgrams
    rw [if_pos (by simpa using hk)]
    simp
  · intro hne hlen
    unfold get_kgrams
    rw [if_pos hlen, if_neg hne]
  · intro hlen
    unfold get_kgrams
    rw [if_neg (by omega)]
    constructor
    · simp
    · intro i hi
      constructor
      · rw [List.get?_map, List.get?_range (by omega)]
        rfl
      · rw [List.length_take, List.length_drop]
        omega

/-- Witness for C9: the 2-grams of `abc` are `ab` and `bc`. -/
theorem C9_get_kgrams_witness :
    (get_kgrams 2 ['a', 'b', 'c']).length = 3 - 2 + 1 :=
  ((C9_get_kgrams 2 ['a', 'b', 'c']).2.2 (by decide)).1

/-! ## Risk levels (`PlagiarismService._get_risk_level`) -/

namespace PlagiarismService

/-- `PlagiarismService._get_risk_level`: the threshold cascade on the
AI score. -/
def get_risk_level (ai_score : ℚ) : String :=
  if 8/10 ≤ ai_score then "critical"
  else if 6/10 ≤ ai_score then "high"
  else if 4/10 ≤ ai_score then "medium"
  else "low"

/-- Severity order of the four risk levels, for stating monotonicity. -/
def riskRank (level : String) : ℕ :=
  if level = "critical" then 3
  else if level = "high" then 2
  else if level = "medium" then 1
  else 0

theorem riskRank_mono (s t : ℚ) (h : s ≤ t) :
    riskRank (get_risk_level s) ≤ riskRank (get_risk_level t) := by
  unfold get_risk_level
  split_ifs <;> first | decide | linarith

end PlagiarismService

open PlagiarismService in
/-- **C10.** `_get_risk_level` is total and characterized by the
thresholds: `critical` iff `ai_score ≥ 0.8`, `high` iff
`0.6 ≤ ai_score < 0.8`, `medium` iff `0.4 ≤ ai_score < 0.6`, `low`
otherwise; and it is monotone in the score (by severity rank). -/
theorem C10_risk_level (s : ℚ) :
    (get_risk_level s = "critical" ↔ 8/10 ≤ s) ∧
    (get_risk_level s = "high" ↔ 6/10 ≤ s ∧ s < 8/10) ∧
    (get_risk_level s = "medium" ↔ 4/10 ≤ s ∧ s < 6/10) ∧
    (get_risk_level s = "low" ↔ s < 4/10) ∧
    (∀ t : ℚ, s ≤ t → riskRank (get_risk_level s) ≤ riskRank (get_risk_level t)) := by
  refine ⟨?_, ?_, ?_, ?_, fun t ht => riskRank_mono s t ht⟩ <;>
    (unfold get_risk_level; split_ifs with h1 h2 h3) <;>
    first
      | exact iff_of_true rfl (by constructor <;> linarith)
      | exact iff_of_true rfl (by linarith)
      | exact iff_of_false (by decide) (by rintro ⟨ha, hb⟩ <;> linarith)
      | exact iff_of_false (by decide) (by intro hh; linarith)

open PlagiarismService in
/-- Witness for C10: the monotonicity component applied at `0.5 ≤ 0.7`. -/
theorem C10_risk_level_witness :
    riskRank (get_risk_level (1/2)) ≤ riskRank (get_risk_level (7/10)) :=
  (C10_risk_level (1/2)).2.2.2.2 (7/10) (by norm_num)

/-! ## Heuristic authorship classifier (`advanced_ai_detector.py`) -/

namespace AdvancedAIDetector

/-- One analyzer's `{'ai_score': ..., 'confidence': ...}` result. -/
structure AnalyzerResult where
  ai_score : ℚ
  confidence : ℚ

/-- The dictionary returned by `AdvancedAIDetector.detect`. -/
structure DetectOutput where
  is_ai : Bool
  ai_score : ℚ
  human_score : ℚ
  confidence : ℚ

/-- Python `round(x, 4)`, modelled as round-half-up to 4 decimals.
(CPython rounds half to even; the two differ only in the last digit at
exact ties and never affect the bounds proved below, which only use
monotonicity and exactness at 4-decimal values.) -/
def round4 (q : ℚ) : ℚ := ((⌊q * 10000 + 1/2⌋ : ℤ) : ℚ) / 10000

theorem round4_mono (a b : ℚ) (h : a ≤ b) : round4 a ≤ round4 b := by
  unfold round4
  rw [div_le_div_iff_of_pos_right (by norm_num)]
  exact_mod_cast Int.floor_le_floor (by linarith)

/-- `np.mean` of a rational list. -/
def listMeanQ (l : List ℚ) : ℚ := l.sum / l.length

/-- `np.var` (population variance) of a rational list. -/
def listVarQ (l : List ℚ) : ℚ :=
  ((l.map (fun x => (x - listMeanQ l) ^ 2)).sum) / l.length

/-- The first ai-pattern boost of `detect` (score component):
`+0.15` capped at `0.98` for three or more AI-indicative matches,
`+0.10` capped at `0.95` for two. -/
def boostScore (aiMatches : ℕ) (s : ℚ) : ℚ :=
  if 3 ≤ aiMatches then min (s + 15/100) (98/100)
  else if 2 ≤ aiMatches then min (s + 1/10) (95/100)
  else s

/-- The first ai-pattern boost (confidence component). -/
def boostConf (aiMatches : ℕ) (c : ℚ) : ℚ :=
  if 3 ≤ aiMatches then min (c + 15/100) (98/100)
  else if 2 ≤ aiMatches then min (c + 1/10) (95/100)
  else c

/-- The second, human-pattern adjustment of `detect` (score component):
`-0.20` floored at `0.05`, or `-0.15` floored at `0.10`. -/
def humanAdjScore (aiMatches humanMatches : ℕ) (s : ℚ) : ℚ :=
  if 3 ≤ humanMatches ∧ aiMatches = 0 then max (s - 2/10) (5/100)
  else if 2 ≤ humanMatches ∧ aiMatches ≤ 1 then max (s - 15/100) (1/10)
  else s

/-- The second, human-pattern adjustment (confidence component):
`+0.15` capped at `0.95`, or `+0.10` capped at `0.90`. -/
def humanAdjConf (aiMatches humanMatches : ℕ) (c : ℚ) : ℚ :=
  if 3 ≤ humanMatches ∧ aiMatches = 0 then min (c + 15/100) (95/100)
  else if 2 ≤ humanMatches ∧ aiMatches ≤ 1 then min (c + 1/10) (9/10)
  else c

/-- The combination tail of `AdvancedAIDetector.detect` (source lines
357–450), as a function of the five analyzer results, the raw AI- and
human-indicative pattern-match counts, and whether the
sorting-algorithm signature matched.  Stages, in source order: the
pattern-based pseudo-analyzer (confidence `0.8`); the weighted
confidence-weighted ensemble; variance-based confidence; the
sorting-algorithm override (`ai_score := max(ai_score, 0.85)`,
`confidence := 0.92`); the AI-pattern boost; the human-pattern
adjustment; rounding of the returned fields (`is_ai` is decided on the
unrounded score, threshold `0.50`). -/
def detect_combine (comments naming structural errorHandling entropy : AnalyzerResult)
    (aiMatches humanMatches : ℕ) (isSorting : Bool) : DetectOutput :=
  let patternScore : ℚ :=
    if 0 < aiMatches + humanMatches then
      (aiMatches : ℚ) / ((aiMatches : ℚ) + (humanMatches : ℚ))
    else 1/2
  let patterns : AnalyzerResult := ⟨patternScore, 8/10⟩
  let totalScore :=
    comments.ai_score * (12/100) * comments.confidence +
    naming.ai_score * (18/100) * naming.confidence +
    structural.ai_score * (15/100) * structural.confidence +
    errorHandling.ai_score * (8/100) * errorHandling.confidence +
    entropy.ai_score * (12/100) * entropy.confidence +
    patterns.ai_score * (35/100) * patterns.confidence
  let totalConf :=
    (12/100) * comments.confidence + (18/100) * naming.confidence +
    (15/100) * structural.confidence + (8/100) * errorHandling.confidence +
    (12/100) * entropy.confidence + (35/100) * patterns.confidence
  let score0 : ℚ := if 0 < totalConf then totalScore / totalConf else 1/2
  let scores : List ℚ := [comments.ai_score, naming.ai_score, structural.ai_score,
    errorHandling.ai_score, entropy.ai_score, patterns.ai_score]
  let conf0 : ℚ :=
    if listVarQ scores < 5/100 then 9/10
    else if listVarQ scores < 1/10 then 3/4
    else 6/10
  let score1 : ℚ := if isSorting then max score0 (85/100) else score0
  let conf1 : ℚ := if isSorting then 92/100 else conf0
  let score2 : ℚ := boostScore aiMatches score1
  let conf2 : ℚ := boostConf aiMatches conf1
  let score3 : ℚ := humanAdjScore aiMatches humanMatches score2
  let conf3 : ℚ := humanAdjConf aiMatches humanMatches conf2
  { is_ai := decide (1/2 ≤ score3),
    ai_score := round4 score3,
    human_score := round4 (1 - score3),
    confidence := round4 conf3 }

theorem boostScore_lb (aiMatches : ℕ) (s : ℚ) (hs : 85/100 ≤ s) :
    85/100 ≤ boostScore aiMatches s := by
  unfold boostScore
  split_ifs <;> first | rw [le_min_iff]; constructor <;> linarith | linarith

theorem boostConf_lb (aiMatches : ℕ) (c : ℚ) (hc : 9/10 ≤ c) :
    9/10 ≤ boostConf aiMatches c := by
  unfold boostConf
  split_ifs <;> first | rw [le_min_iff]; constructor <;> linarith | linarith

theorem humanAdjScore_lb (aiMatches humanMatches : ℕ) (s : ℚ)
    (hs : 85/100 ≤ s) : 13/20 ≤ humanAdjScore aiMatches humanMatches s := by
  unfold humanAdjScore
  split_ifs <;> first | rw [le_max_iff]; left; linarith | linarith

theorem humanAdjConf_lb (aiMatches humanMatches : ℕ) (c : ℚ)
    (hc : 9/10 ≤ c) : 9/10 ≤ humanAdjConf aiMatches humanMatches c := by
  unfold humanAdjConf
  split_ifs <;> first | rw [le_min_iff]; constructor <;> linarith | linarith

theorem round4_at_13_20 : round4 (13/20) = 13/20 := by
  unfold round4
  norm_num

theorem round4_at_9_10 : round4 (9/10) = 9/10 := by
  unfold round4
  norm_num

end AdvancedAIDetector

open AdvancedAIDetector in
/-- **C5.** Whenever the canonical sorting-algorithm signature matches
(`is_sorting_algorithm` true — e.g. an undecorated `def bubble_sort`
function, which matches `\bdef\s+(bubble_sort|...)`), the result of
`detect` has `is_ai = true` and `confidence ≥ 0.9` *regardless* of the
five analyzer signals and the pattern-match counts, and the returned
`ai_score` is floored: the override raises it to at least `0.85` and no
subsequent adjustment can take it below `0.65`. -/
theorem C5_sorting_override
    (comments naming structural errorHandling entropy : AnalyzerResult)
    (aiMatches humanMatches : ℕ) :
    (detect_combine comments naming structural errorHandling entropy
      aiMatches humanMatches true).is_ai = true ∧
    9/10 ≤ (detect_combine comments naming structural errorHandling entropy
      aiMatches humanMatches true).confidence ∧
    13/20 ≤ (detect_combine comments naming structural errorHandling entropy
      aiMatches humanMatches true).ai_score := by
  simp only [detect_combine, if_true]
  refine ⟨?_, ?_, ?_⟩
  · rw [decide_eq_true_iff]
    exact le_trans (by norm_num)
      (humanAdjScore_lb aiMatches humanMatches _
        (boostScore_lb aiMatches _ (le_max_right _ _)))
  · calc (9/10 : ℚ) = round4 (9/10) := round4_at_9_10.symm
    _ ≤ _ := round4_mono _ _
        (humanAdjConf_lb aiMatches humanMatches _
          (boostConf_lb aiMatches _ (by norm_num)))
  · calc (13/20 : ℚ) = round4 (13/20) := round4_at_13_20.symm
    _ ≤ _ := round4_mono _ _
        (humanAdjScore_lb aiMatches humanMatches _
          (boostScore_lb aiMatches _ (le_max_right _ _)))

/-! ## Analysis orchestrator (`plagiarism_service.py`) -/

namespace PlagiarismService

/-- A row of the `files` relation attached to a submission. -/
structure FileRec where
  filename : String
  language : String
deriving DecidableEq

/-- A row of the `submissions` table together with its files. -/
structure SubmissionRec where
  id : String
  files : List FileRec
deriving DecidableEq

/-- The dictionary returned by `detector.detect_ai`, in the fields the
orchestrator reads. -/
structure AiResult where
  ai_score : ℚ
  is_ai : Bool
  confidence : ℚ
deriving DecidableEq

/-- The `analysis_results` insert payload built at source lines 68–78. -/
structure AnalysisRow where
  submission_id : String
  ai_detection_score : ℚ
  risk_level : String
  filename : String
  is_ai : Bool
  confidence : ℚ
  fingerprint_count : ℕ
deriving DecidableEq

/-- The `comparison_pairs` update payload of source lines 125–128,
keyed by the two submission ids. -/
structure PairRow where
  submission_a_id : String
  submission_b_id : String
  similarity_score : ℚ
  status : String
deriving DecidableEq

/-- The externally observable writes of one run: the last
`assignments.status` update, the `submissions.status` update log, the
inserted `analysis_results` rows and the updated `comparison_pairs`
rows. -/
structure DBState where
  assignmentStatus : Option String
  submissionStatusLog : List (String × String)
  analysisRows : List AnalysisRow
  pairRows : List PairRow
deriving DecidableEq

def initState : DBState := ⟨none, [], [], []⟩

/-- The orchestrator's environment: the submission store, the detector,
and the outcome of each fallible external call.

* `listSubmissions` — the step-1 `submissions` select (`none` models the
  query raising, the only failure handled by the top-level handler when
  it occurs first).
* `fileExists`/`readFile` — `Path.exists` and `open(...).read` under
  `/tmp/submissions/{sub_id}/{filename}` (`none` = raises inside the
  per-file `try`).
* `detectAi` — `detector.detect_ai` (`none` = raises inside the
  per-file `try`).
* `insertAnalysisOk` — whether the `analysis_results` insert succeeds.
* `getEmbeddingOk` — whether `detector.get_embedding(code)` succeeds;
  a failure escapes to the top-level handler (it is *outside* the
  per-file `try`).
* `embedSim` — modelled from the spec: the external semantic score
  (`np.dot(a,b)/(norm*norm)` of the averaged neural embeddings) is the
  opaque output of the external model, so the value is supplied by the
  environment per submission pair; the orchestrator uses it exactly
  where the source computes `embedding_similarity`.
* `updateAssignmentOk`/`updateSubmissionOk`/`updatePairOk` — whether
  the respective status-update writes succeed; a failure escapes to
  the top-level handler. -/
structure Env where
  listSubmissions : Option (List SubmissionRec)
  fileExists : String → String → Bool
  readFile : String → String → Option (List Char)
  detectAi : List Char → String → Option AiResult
  insertAnalysisOk : AnalysisRow → Bool
  getEmbeddingOk : List Char → Bool
  embedSim : String → String → ℚ
  updateAssignmentOk : String → Bool
  updateSubmissionOk : String → String → Bool
  updatePairOk : String → String → Bool

/-- The `analysis_results` payload for one file (source lines 68–78). -/
def mkAnalysisRow (subId : String) (file : FileRec) (r : AiResult)
    (fingerprintCount : ℕ) : AnalysisRow :=
  { submission_id := subId,
    ai_detection_score := r.ai_score,
    risk_level := get_risk_level r.ai_score,
    filename := file.filename,
    is_ai := r.is_ai,
    confidence := r.confidence,
    fingerprint_count := fingerprintCount }

/-- The fingerprints of one file's content, through the module-level
`winnowing_service` instance (`k = 15`, `w = 10`). -/
def fpOf (code : List Char) : Finset ℕ :=
  WinnowingService.get_fingerprints
    WinnowingService.default_k WinnowingService.default_w code

/-- The per-file body of step 3 (source lines 51–81): the existence
check, then — inside the per-file `try` — read, fingerprint, detect and
insert.  The accumulator carries `all_code_for_sub`,
`all_fingerprints_for_sub` and the DB state; a failure after a
successful read keeps the code/fingerprint contributions already made
(the `try` starts after the `append`s in source order: read feeds
`all_code_for_sub` and the fingerprint union before `detect_ai` runs). -/
def processFile (env : Env) (subId : String)
    (acc : List (List Char) × Finset ℕ × DBState) (file : FileRec) :
    List (List Char) × Finset ℕ × DBState :=
  if env.fileExists subId file.filename then
    match env.readFile subId file.filename with
    | none => acc
    | some code =>
      let codes := acc.1 ++ [code]
      let fps := acc.2.1 ∪ fpOf code
      match env.detectAi code file.language with
      | none => (codes, fps, acc.2.2)
      | some r =>
        let row := mkAnalysisRow subId file r (fpOf code).card
        if env.insertAnalysisOk row then
          (codes, fps,
            { acc.2.2 with analysisRows := acc.2.2.analysisRows ++ [row] })
        else (codes, fps, acc.2.2)
  else acc

/-- The per-submission body of step 3: fold the files, record the
submission's fingerprint union, then (outside the per-file `try`)
compute embeddings for every collected code; an embedding failure
raises out of the whole `try` block (`Except.error`). -/
def processSub (env : Env)
    (acc : List (String × Finset ℕ) × List String × DBState)
    (sub : SubmissionRec) :
    Except DBState (List (String × Finset ℕ) × List String × DBState) :=
  let r := sub.files.foldl (processFile env sub.id) ([], ∅, acc.2.2)
  let fpsMap := acc.1 ++ [(sub.id, r.2.1)]
  if r.1 = [] then Except.ok (fpsMap, acc.2.1, r.2.2)
  else if r.1.all env.getEmbeddingOk then
    Except.ok (fpsMap, acc.2.1 ++ [sub.id], r.2.2)
  else Except.error r.2.2

/-- Step 3 over all submissions. -/
def analyzePhase (env : Env) (subs : List SubmissionRec) (st : DBState) :
    Except DBState (List (String × Finset ℕ) × List String × DBState) :=
  subs.foldlM (processSub env) ([], [], st)

/-- The submission-status loops of steps 2 and 5. -/
def setSubmissionStatuses (env : Env) (status : String)
    (subs : List SubmissionRec) (st : DBState) : Except DBState DBState :=
  subs.foldlM (fun s sub =>
    if env.updateSubmissionOk sub.id status then
      Except.ok { s with
        submissionStatusLog := s.submissionStatusLog ++ [(sub.id, status)] }
    else Except.error s) st

/-- Step 2: assignment to `processing`, then every submission. -/
def setAllProcessing (env : Env) (subs : List SubmissionRec) (st : DBState) :
    Except DBState DBState :=
  if env.updateAssignmentOk "processing" then
    setSubmissionStatuses env "processing" subs
      { st with assignmentStatus := some "processing" }
  else Except.error st

/-- Step 5: assignment to `completed` first, then every submission. -/
def setAllCompleted (env : Env) (subs : List SubmissionRec) (st : DBState) :
    Except DBState DBState :=
  if env.updateAssignmentOk "completed" then
    setSubmissionStatuses env "completed" subs
      { st with assignmentStatus := some "completed" }
  else Except.error st

/-- The unordered pairs enumerated by
`for i, a in enumerate(subs): for b in subs[i+1:]`. -/
def pairsOf {α : Type} : List α → List (α × α)
  | [] => []
  | x :: xs => xs.map (fun y => (x, y)) ++ pairsOf xs

/-- Python dict lookup (last assignment wins). -/
def dictLookup (m : List (String × Finset ℕ)) (k : String) :
    Option (Finset ℕ) :=
  (m.reverse.find? (fun p => p.1 == k)).map (·.2)

/-- The combined similarity of source lines 119–122:
`max(embedding*0.4 + winnowing*0.6, winnowing)`. -/
def combined_similarity (embedding_similarity winnowing_similarity : ℚ) : ℚ :=
  max (embedding_similarity * (4/10) + winnowing_similarity * (6/10))
    winnowing_similarity

/-- The `comparison_pairs` payload for one pair (source lines 99–128):
both similarity signals default to `0.0`, the embedding signal needs
both submissions in `submission_embeddings`, the structural signal
needs both in `submission_fingerprints`, and the persisted score is
`min(combined, 1.0)` with status `completed`. -/
def mkPairRow (env : Env) (fpsMap : List (String × Finset ℕ))
    (embIds : List String) (p : SubmissionRec × SubmissionRec) : PairRow :=
  let e : ℚ :=
    if p.1.id ∈ embIds ∧ p.2.id ∈ embIds then env.embedSim p.1.id p.2.id
    else 0
  let w : ℚ :=
    match dictLookup fpsMap p.1.id, dictLookup fpsMap p.2.id with
    | some fa, some fb => WinnowingService.compute_similarity fa fb
    | _, _ => 0
  { submission_a_id := p.1.id,
    submission_b_id := p.2.id,
    similarity_score := min (combined_similarity e w) 1,
    status := "completed" }

/-- One iteration of the step-4 pair loop; the `comparison_pairs`
update raising escapes to the top-level handler (there is no per-pair
`try`). -/
def processPair (env : Env) (fpsMap : List (String × Finset ℕ))
    (embIds : List String) (st : DBState)
    (p : SubmissionRec × SubmissionRec) : Except DBState DBState :=
  if env.updatePairOk p.1.id p.2.id then
    Except.ok { st with pairRows := st.pairRows ++ [mkPairRow env fpsMap embIds p] }
  else Except.error st

/-- Step 4 over all pairs. -/
def pairsPhase (env : Env) (fpsMap : List (String × Finset ℕ))
    (embIds : List String) (subs : List SubmissionRec) (st : DBState) :
    Except DBState DBState :=
  (pairsOf subs).foldlM (processPair env fpsMap embIds) st

/-- The body of the top-level `try` after a successful enumeration with
at least two submissions: steps 2–5 in order; any raise carries the
writes made so far to the handler. -/
def runBody (env : Env) (subs : List SubmissionRec) (st : DBState) :
    Except DBState DBState :=
  match setAllProcessing env subs st with
  | .error s => .error s
  | .ok st1 =>
    match analyzePhase env subs st1 with
    | .error s => .error s
    | .ok r =>
      match pairsPhase env r.1 r.2.1 subs r.2.2 with
      | .error s => .error s
      | .ok st2 => setAllCompleted env subs st2

/-- The `except` handler (source lines 137–139): set the assignment to
`failed`; if that update itself raises, nothing further is recorded. -/
def handleFailure (env : Env) (st : DBState) : DBState :=
  if env.updateAssignmentOk "failed" then
    { st with assignmentStatus := some "failed" }
  else st

/-- `PlagiarismService.run_assignment_analysis`: enumerate submissions
(failure → handler); fewer than two submissions → log a warning and
*return* (no status write, no analysis); otherwise run steps 2–5 with
the top-level handler around them. -/
def run_assignment_analysis (env : Env) : DBState :=
  match env.listSubmissions with
  | none => handleFailure env initState
  | some subs =>
    if subs.length < 2 then initState
    else
      match runBody env subs initState with
      | Except.ok st => st
      | Except.error st => handleFailure env st

/-- The final status of one submission: the last update recorded for
its id. -/
def lastSubmissionStatus (st : DBState) (id : String) : Option String :=
  (st.submissionStatusLog.reverse.find? (fun p => p.1 == id)).map (·.2)

/-! ### Derived views of one run, used to state the claims -/

/-- What one file read yields: the content when the file exists and the
read succeeds, `none` otherwise. -/
def readOk (env : Env) (subId : String) (file : FileRec) : Option (List Char) :=
  if env.fileExists subId file.filename then env.readFile subId file.filename
  else none

/-- The `AnalysisRow` one file contributes: present exactly when the
read, the detection and the insert all succeed. -/
def fileRow (env : Env) (subId : String) (file : FileRec) : Option AnalysisRow :=
  (readOk env subId file).bind fun code =>
    (env.detectAi code file.language).bind fun r =>
      if env.insertAnalysisOk (mkAnalysisRow subId file r (fpOf code).card) then
        some (mkAnalysisRow subId file r (fpOf code).card)
      else none

/-- `all_code_for_sub` after the file loop: contents of the readable
files, in file order. -/
def subCodes (env : Env) (sub : SubmissionRec) : List (List Char) :=
  sub.files.filterMap (readOk env sub.id)

/-- The `analysis_results` rows one submission contributes. -/
def subRows (env : Env) (sub : SubmissionRec) : List AnalysisRow :=
  sub.files.filterMap (fileRow env sub.id)

/-- `all_fingerprints_for_sub` after the file loop: the union of the
fingerprints of the readable files. -/
def subFps (env : Env) (sub : SubmissionRec) : Finset ℕ :=
  (subCodes env sub).foldl (fun s c => s ∪ fpOf c) ∅

/-- The `submission_fingerprints` dict at the end of step 3. -/
def fpsMapOf (env : Env) (subs : List SubmissionRec) :
    List (String × Finset ℕ) :=
  subs.map (fun s => (s.id, subFps env s))

/-- The keys of `submission_embeddings` at the end of step 3 (in a run
where no embedding call raised): the submissions with at least one
readable file. -/
def embIdsOf (env : Env) (subs : List SubmissionRec) : List String :=
  (subs.filter (fun s => !(subCodes env s).isEmpty)).map (·.id)

/-! ### Characterization of the phases -/

theorem processFile_foldl (env : Env) (subId : String) :
    ∀ (files : List FileRec) (cs : List (List Char)) (fps : Finset ℕ)
      (st : DBState),
      files.foldl (processFile env subId) (cs, fps, st) =
        (cs ++ files.filterMap (readOk env subId),
         (files.filterMap (readOk env subId)).foldl (fun s c => s ∪ fpOf c) fps,
         { st with analysisRows :=
            st.analysisRows ++ files.filterMap (fileRow env subId) }) := by
  intro files
  induction files with
  | nil =>
    intro cs fps st
    simp
  | cons f files ih =>
    intro cs fps st
    rw [List.foldl_cons]
    by_cases he : env.fileExists subId f.filename
    · cases hr : env.readFile subId f.filename with
      | none =>
        have hro : readOk env subId f = none := by simp [readOk, he, hr]
        have hfr : fileRow env subId f = none := by simp [fileRow, hro]
        simp only [processFile, if_pos he, hr]
        rw [ih]
        simp [hro, hfr]
      | some code =>
        have hro : readOk env subId f = some code := by simp [readOk, he, hr]
        cases hd : env.detectAi code f.language with
        | none =>
          have hfr : fileRow env subId f = none := by simp [fileRow, hro, hd]
          simp only [processFile, if_pos he, hr, hd]
          rw [ih]
          simp [hro, hfr]
        | some r =>
          by_cases hi : env.insertAnalysisOk (mkAnalysisRow subId f r (fpOf code).card)
          · have hfr : fileRow env subId f =
                some (mkAnalysisRow subId f r (fpOf code).card) := by
              simp [fileRow, hro, hd, hi]
            simp only [processFile, if_pos he, hr, hd, if_pos hi]
            rw [ih]
            simp [hro, hfr]
          · have hfr : fileRow env subId f = none := by
              simp [fileRow, hro, hd, hi]
            simp only [processFile, if_pos he, hr, hd, if_neg hi]
            rw [ih]
            simp [hro, hfr]
    · have hro : readOk env subId f = none := by simp [readOk, he]
      have hfr : fileRow env subId f = none := by simp [fileRow, hro]
      simp only [processFile, if_neg he]
      rw [ih]
      simp [hro, hfr]

theorem except_ok_bind {ε α β : Type} (x : α) (f : α → Except ε β) :
    (Except.ok x >>= f : Except ε β) = f x := rfl

theorem except_pure_eq_ok {ε α : Type} (x : α) :
    (pure x : Except ε α) = Except.ok x := rfl

theorem processSub_ok (env : Env) (hE : ∀ c, env.getEmbeddingOk c = true)
    (m : List (String × Finset ℕ)) (ids : List String) (st : DBState)
    (sub : SubmissionRec) :
    processSub env (m, ids, st) sub = Except.ok
      (m ++ [(sub.id, subFps env sub)],
       ids ++ (if (subCodes env sub).isEmpty then [] else [sub.id]),
       { st with analysisRows := st.analysisRows ++ subRows env sub }) := by
  unfold processSub
  rw [processFile_foldl]
  simp only [List.nil_append]
  by_cases hc0 : List.filterMap (readOk env sub.id) sub.files = []
  · rw [if_pos hc0]
    have hEmp : (subCodes env sub).isEmpty = true := by simp [subCodes, hc0]
    rw [if_pos hEmp]
    simp only [subFps, subCodes, subRows, List.append_nil]
  · rw [if_neg hc0]
    have hall : (List.filterMap (readOk env sub.id) sub.files).all
        env.getEmbeddingOk = true := by
      rw [List.all_eq_true]
      intro c _
      exact hE c
    rw [if_pos hall]
    have hEmp : ¬ (subCodes env sub).isEmpty = true := by
      simp [subCodes, hc0]
    rw [if_neg hEmp]
    simp only [subFps, subCodes, subRows]

theorem analyzePhase_ok (env : Env) (hE : ∀ c, env.getEmbeddingOk c = true) :
    ∀ (subs : List SubmissionRec) (m : List (String × Finset ℕ))
      (ids : List String) (st : DBState),
      subs.foldlM (processSub env) (m, ids, st) = Except.ok
        (m ++ fpsMapOf env subs, ids ++ embIdsOf env subs,
         { st with analysisRows :=
            st.analysisRows ++ (subs.map (subRows env)).flatten }) := by
  intro subs
  induction subs with
  | nil =>
    intro m ids st
    simp only [List.foldlM_nil, fpsMapOf, embIdsOf, List.map_nil,
      List.filter_nil, List.flatten_nil, List.append_nil, except_pure_eq_ok]
  | cons sub subs ih =>
    intro m ids st
    rw [List.foldlM_cons, processSub_ok env hE]
    rw [except_ok_bind]
    rw [ih]
    by_cases hc : (subCodes env sub).isEmpty
    · have hc' : (!(subCodes env sub).isEmpty) = false := by simp [hc]
      simp [fpsMapOf, embIdsOf, hc, hc', List.filter_cons]
    · have hc' : (!(subCodes env sub).isEmpty) = true := by simp_all
      simp [fpsMapOf, embIdsOf, hc, hc', List.filter_cons]

theorem setSubmissionStatuses_ok (env : Env) (status : String)
    (hS : ∀ id s, env.updateSubmissionOk id s = true) :
    ∀ (subs : List SubmissionRec) (st : DBState),
      setSubmissionStatuses env status subs st = Except.ok
        { st with submissionStatusLog :=
            st.submissionStatusLog ++ subs.map (fun s => (s.id, status)) } := by
  intro subs
  induction subs with
  | nil =>
    intro st
    simp only [setSubmissionStatuses, List.foldlM_nil, List.map_nil,
      List.append_nil, except_pure_eq_ok]
  | cons sub subs ih =>
    intro st
    unfold setSubmissionStatuses at ih ⊢
    rw [List.foldlM_cons, if_pos (hS sub.id status)]
    rw [except_ok_bind]
    rw [ih]
    simp

theorem pairsPhase_ok (env : Env) (m : List (String × Finset ℕ))
    (ids : List String) (hP : ∀ a b, env.updatePairOk a b = true) :
    ∀ (ps : List (SubmissionRec × SubmissionRec)) (st : DBState),
      ps.foldlM (processPair env m ids) st = Except.ok
        { st with pairRows := st.pairRows ++ ps.map (mkPairRow env m ids) } := by
  intro ps
  induction ps with
  | nil =>
    intro st
    simp only [List.foldlM_nil, List.map_nil, List.append_nil,
      except_pure_eq_ok]
  | cons p ps ih =>
    intro st
    have hstep : processPair env m ids st p = Except.ok
        { st with pairRows := st.pairRows ++ [mkPairRow env m ids p] } := by
      unfold processPair
      rw [if_pos (hP p.1.id p.2.id)]
    rw [List.foldlM_cons, hstep, except_ok_bind, ih]
    simp

/-- Full characterization of a run in which every store write, every
embedding call and every pair update succeeds (file reads, detection
and row inserts may still fail arbitrarily). -/
theorem run_ok_characterization (env : Env) (subs : List SubmissionRec)
    (h : env.listSubmissions = some subs) (hlen : ¬ subs.length < 2)
    (hA : ∀ s, env.updateAssignmentOk s = true)
    (hS : ∀ id s, env.updateSubmissionOk id s = true)
    (hE : ∀ c, env.getEmbeddingOk c = true)
    (hP : ∀ a b, env.updatePairOk a b = true) :
    run_assignment_analysis env =
      { assignmentStatus := some "completed",
        submissionStatusLog :=
          subs.map (fun s => (s.id, "processing")) ++
          subs.map (fun s => (s.id, "completed")),
        analysisRows := (subs.map (subRows env)).flatten,
        pairRows := (pairsOf subs).map
          (mkPairRow env (fpsMapOf env subs) (embIdsOf env subs)) } := by
  unfold run_assignment_analysis
  rw [h]
  simp only [if_neg hlen]
  unfold runBody setAllProcessing
  rw [if_pos (hA "processing")]
  rw [setSubmissionStatuses_ok env "processing" hS]
  simp only []
  unfold analyzePhase
  rw [analyzePhase_ok env hE]
  simp only []
  unfold pairsPhase
  rw [pairsPhase_ok env _ _ hP]
  simp only []
  unfold setAllCompleted
  rw [if_pos (hA "completed")]
  rw [setSubmissionStatuses_ok env "completed" hS]
  simp [initState]

theorem except_error_bind {ε α β : Type} (e : ε) (f : α → Except ε β) :
    (Except.error e >>= f : Except ε β) = Except.error e := rfl

/-- The DB state carried by an analyze-phase outcome, whether it
returned or raised. -/
def stateOfAnalyze :
    Except DBState (List (String × Finset ℕ) × List String × DBState) →
      DBState
  | .ok r => r.2.2
  | .error s => s

/-- The DB state carried by a run-phase outcome, whether it returned or
raised. -/
def stateOfRun : Except DBState DBState → DBState
  | .ok s => s
  | .error s => s

theorem processSub_pairRows (env : Env) (m : List (String × Finset ℕ))
    (ids : List String) (st : DBState) (sub : SubmissionRec) :
    (stateOfAnalyze (processSub env (m, ids, st) sub)).pairRows =
      st.pairRows := by
  unfold processSub
  rw [processFile_foldl]
  simp only [List.nil_append]
  split
  · rfl
  · split
    · rfl
    · rfl

theorem analyzeFold_pairRows (env : Env) :
    ∀ (subs : List SubmissionRec) (m : List (String × Finset ℕ))
      (ids : List String) (st : DBState),
      (stateOfAnalyze (subs.foldlM (processSub env) (m, ids, st))).pairRows =
        st.pairRows := by
  intro subs
  induction subs with
  | nil => intro m ids st; rfl
  | cons sub subs ih =>
    intro m ids st
    rw [List.foldlM_cons]
    cases hres : processSub env (m, ids, st) sub with
    | error s =>
      have hpr := processSub_pairRows env m ids st sub
      rw [hres] at hpr
      rw [except_error_bind]
      exact hpr
    | ok r =>
      have hpr := processSub_pairRows env m ids st sub
      rw [hres] at hpr
      rw [except_ok_bind]
      exact (ih r.1 r.2.1 r.2.2).trans hpr

theorem setSubmissionStatuses_pairRows (env : Env) (status : String) :
    ∀ (subs : List SubmissionRec) (st : DBState),
      (stateOfRun (setSubmissionStatuses env status subs st)).pairRows =
        st.pairRows := by
  intro subs
  induction subs with
  | nil => intro st; rfl
  | cons sub subs ih =>
    intro st
    unfold setSubmissionStatuses at ih ⊢
    rw [List.foldlM_cons]
    by_cases hu : env.updateSubmissionOk sub.id status
    · rw [if_pos hu, except_ok_bind]
      exact ih _
    · rw [if_neg hu, except_error_bind]
      rfl

theorem setAllProcessing_pairRows (env : Env) (subs : List SubmissionRec)
    (st : DBState) :
    (stateOfRun (setAllProcessing env subs st)).pairRows = st.pairRows := by
  unfold setAllProcessing
  split
  · exact setSubmissionStatuses_pairRows env "processing" subs _
  · rfl

theorem setAllCompleted_pairRows (env : Env) (subs : List SubmissionRec)
    (st : DBState) :
    (stateOfRun (setAllCompleted env subs st)).pairRows = st.pairRows := by
  unfold setAllCompleted
  split
  · exact setSubmissionStatuses_pairRows env "completed" subs _
  · rfl

theorem handleFailure_pairRows (env : Env) (st : DBState) :
    (handleFailure env st).pairRows = st.pairRows := by
  unfold handleFailure
  split
  · rfl
  · rfl

/-- Every row the pair loop appends is an `mkPairRow`; rows already
present are preserved. -/
theorem pairsFold_inv (env : Env) (m : List (String × Finset ℕ))
    (ids : List String) (P : PairRow → Prop)
    (hmk : ∀ p, P (mkPairRow env m ids p)) :
    ∀ (ps : List (SubmissionRec × SubmissionRec)) (st : DBState),
      (∀ r ∈ st.pairRows, P r) →
      ∀ r ∈ (stateOfRun (ps.foldlM (processPair env m ids) st)).pairRows,
        P r := by
  intro ps
  induction ps with
  | nil => intro st hst; exact hst
  | cons p ps ih =>
    intro st hst
    rw [List.foldlM_cons]
    by_cases hu : env.updatePairOk p.1.id p.2.id
    · have hstep : processPair env m ids st p = Except.ok
          { st with pairRows := st.pairRows ++ [mkPairRow env m ids p] } := by
        unfold processPair
        rw [if_pos hu]
      rw [hstep, except_ok_bind]
      apply ih
      intro r hr
      rcases List.mem_append.mp hr with hr | hr
      · exact hst r hr
      · rw [List.mem_singleton.mp hr]
        exact hmk p
    · have hstep : processPair env m ids st p = Except.error st := by
        unfold processPair
        rw [if_neg hu]
      rw [hstep, except_error_bind]
      exact hst

/-- Every `comparison_pairs` row any run (of any environment) ever
persists is an `mkPairRow` for some fingerprint map and embedding-id
set. -/
theorem run_pairRows_inv (env : Env) (P : PairRow → Prop)
    (hmk : ∀ m ids p, P (mkPairRow env m ids p)) :
    ∀ r ∈ (run_assignment_analysis env).pairRows, P r := by
  intro r hr
  cases h : env.listSubmissions with
  | none =>
    unfold run_assignment_analysis at hr
    rw [h] at hr
    simp only [handleFailure_pairRows] at hr
    simp [initState] at hr
  | some subs =>
    unfold run_assignment_analysis at hr
    rw [h] at hr
    by_cases hlen : subs.length < 2
    · simp only [if_pos hlen] at hr
      simp [initState] at hr
    · simp only [if_neg hlen] at hr
      unfold runBody at hr
      cases h1 : setAllProcessing env subs initState with
      | error s =>
        have hp1 := setAllProcessing_pairRows env subs initState
        rw [h1] at hp1
        simp only [stateOfRun] at hp1
        rw [h1] at hr
        simp only [handleFailure_pairRows] at hr
        rw [hp1] at hr
        simp [initState] at hr
      | ok st1 =>
        have hp1 := setAllProcessing_pairRows env subs initState
        rw [h1] at hp1
        simp only [stateOfRun] at hp1
        rw [h1] at hr
        simp only [] at hr
        unfold analyzePhase at hr
        cases h2 : subs.foldlM (processSub env) ([], [], st1) with
        | error s2 =>
          have hp2 := analyzeFold_pairRows env subs [] [] st1
          rw [h2] at hp2
          simp only [stateOfAnalyze] at hp2
          rw [h2] at hr
          simp only [handleFailure_pairRows] at hr
          rw [hp2, hp1] at hr
          simp [initState] at hr
        | ok rst =>
          have hp2 := analyzeFold_pairRows env subs [] [] st1
          rw [h2] at hp2
          simp only [stateOfAnalyze] at hp2
          rw [h2] at hr
          simp only [] at hr
          have hrows : rst.2.2.pairRows = [] := by
            rw [hp2, hp1]
            rfl
          have hinv := pairsFold_inv env rst.1 rst.2.1 P (hmk rst.1 rst.2.1)
            (pairsOf subs) rst.2.2 (by rw [hrows]; intro q hq; cases hq)
          unfold pairsPhase at hr
          cases h3 : (pairsOf subs).foldlM
              (processPair env rst.1 rst.2.1) rst.2.2 with
          | error s3 =>
            rw [h3] at hinv
            simp only [stateOfRun] at hinv
            rw [h3] at hr
            simp only [handleFailure_pairRows] at hr
            exact hinv r hr
          | ok st2 =>
            rw [h3] at hinv
            simp only [stateOfRun] at hinv
            rw [h3] at hr
            simp only [] at hr
            cases h4 : setAllCompleted env subs st2 with
            | error s4 =>
              have hp4 := setAllCompleted_pairRows env subs st2
              rw [h4] at hp4
              simp only [stateOfRun] at hp4
              rw [h4] at hr
              simp only [handleFailure_pairRows] at hr
              rw [hp4] at hr
              exact hinv r hr
            | ok st4 =>
              have hp4 := setAllCompleted_pairRows env subs st2
              rw [h4] at hp4
              simp only [stateOfRun] at hp4
              rw [h4] at hr
              rw [hp4] at hr
              exact hinv r hr

/-- `find?` by key over a list whose entries all carry the same value
returns that value when the key occurs. -/
theorem find?_key_const (ps : List (String × String)) (id status : String)
    (hall : ∀ p ∈ ps, p.2 = status) (hex : ∃ p ∈ ps, p.1 = id) :
    ∃ p, ps.find? (fun q => q.1 == id) = some p ∧ p.2 = status := by
  induction ps with
  | nil =>
    rcases hex with ⟨p, hp, _⟩
    cases hp
  | cons q ps ih =>
    by_cases hq : (q.1 == id) = true
    · exact ⟨q, List.find?_cons_of_pos _ hq, hall q (List.mem_cons_self q ps)⟩
    · rcases hex with ⟨p, hp, hpid⟩
      rcases List.mem_cons.mp hp with rfl | hp'
      · exact absurd (by simp [hpid]) hq
      · obtain ⟨p', h1, h2⟩ :=
          ih (fun r hr => hall r (List.mem_cons_of_mem q hr)) ⟨p, hp', hpid⟩
        exact ⟨p',
          (@List.find?_cons_of_neg _ (fun r => r.1 == id) q ps hq).trans h1, h2⟩

end PlagiarismService

/-! ## Claims C1–C4: the orchestrator -/

open PlagiarismService

/-- Concrete submission/file fixtures used in witnesses and
counterexamples. -/
def fileF : FileRec := ⟨"f", "python"⟩

def subA : SubmissionRec := ⟨"a", [fileF]⟩

def subB : SubmissionRec := ⟨"b", [fileF]⟩

/-- An environment in which every external call succeeds, every file
reads as `x`, and the semantic provider scores every pair `0`. -/
def envTwoSubs : Env :=
  { listSubmissions := some [subA, subB],
    fileExists := fun _ _ => true,
    readFile := fun _ _ => some ['x'],
    detectAi := fun _ _ => some ⟨1/2, false, 1/2⟩,
    insertAnalysisOk := fun _ => true,
    getEmbeddingOk := fun _ => true,
    embedSim := fun _ _ => 0,
    updateAssignmentOk := fun _ => true,
    updateSubmissionOk := fun _ _ => true,
    updatePairOk := fun _ _ => true }

/-- Same store, but with a single submission. -/
def envOneSub : Env := { envTwoSubs with listSubmissions := some [subA] }

/-- **C1 counterexample.** With exactly one submission the run returns
*before* any write: no `AnalysisResult` row is created for the
readable file and the assignment status is never set to `completed`
(nor to anything else) — the claimed per-file classification does not
happen. -/
theorem C1_counterexample :
    envOneSub.listSubmissions = some [subA] ∧
    (run_assignment_analysis envOneSub).analysisRows = [] ∧
    (run_assignment_analysis envOneSub).assignmentStatus ≠ some "completed" :=
  ⟨rfl, by decide, by decide⟩

/-- **C1 (amended).** With fewer than two submissions
`run_assignment_analysis` returns early: the database state is left
completely untouched — zero `AnalysisResult` rows, zero
`ComparisonPair` updates, no status change (in particular the
assignment is *not* marked `failed`, but not `completed` either). -/
theorem C1_single_submission_early_return (env : Env)
    (subs : List SubmissionRec) (h : env.listSubmissions = some subs)
    (hlen : subs.length < 2) :
    run_assignment_analysis env = initState := by
  unfold run_assignment_analysis
  rw [h]
  simp only [if_pos hlen]

/-- Witness for C1 (amended) at the concrete one-submission store. -/
theorem C1_single_submission_witness :
    run_assignment_analysis envOneSub = initState :=
  C1_single_submission_early_return envOneSub [subA] rfl (by decide)

/-- Two readable submissions, but the `comparison_pairs` update
raises. -/
def envPairFail : Env := { envTwoSubs with updatePairOk := fun _ _ => false }

/-- **C2 counterexample.** A failure while processing a comparison pair
is *not* caught: with submissions enumerated successfully and all
per-file analysis succeeding (analysis rows were created), a raising
pair update reaches the top-level handler and flips the assignment to
`failed` — refuting both "pair failure is caught with the run
continuing" and "only the top-level enumeration failure flips the
status to failed". -/
theorem C2_counterexample :
    envPairFail.listSubmissions = some [subA, subB] ∧
    (run_assignment_analysis envPairFail).analysisRows ≠ [] ∧
    (run_assignment_analysis envPairFail).assignmentStatus = some "failed" :=
  ⟨rfl, by with_unfolding_all decide, by with_unfolding_all decide⟩

/-- **C2 (amended).** File-level failures *are* isolated: whatever the
outcomes of the per-file existence checks, reads, detections and row
inserts, a run whose store writes, embedding calls and pair updates
all succeed completes — the assignment ends `completed`, every
submission's last status update is `completed`, and the
`analysis_results` rows are exactly those of the files whose
read/detect/insert pipeline succeeded.  (Pair-level failures, by
contrast, abort the run: see the counterexample.) -/
theorem C2_file_failure_isolation (env : Env) (subs : List SubmissionRec)
    (h : env.listSubmissions = some subs) (hlen : 2 ≤ subs.length)
    (hA : ∀ s, env.updateAssignmentOk s = true)
    (hS : ∀ id s, env.updateSubmissionOk id s = true)
    (hE : ∀ c, env.getEmbeddingOk c = true)
    (hP : ∀ a b, env.updatePairOk a b = true) :
    (run_assignment_analysis env).assignmentStatus = some "completed" ∧
    (run_assignment_analysis env).analysisRows =
      (subs.map (subRows env)).flatten ∧
    ∀ sub ∈ subs,
      lastSubmissionStatus (run_assignment_analysis env) sub.id =
        some "completed" := by
  have hrun := run_ok_characterization env subs h (by omega) hA hS hE hP
  rw [hrun]
  refine ⟨rfl, rfl, ?_⟩
  intro sub hsub
  unfold lastSubmissionStatus
  simp only [List.reverse_append]
  obtain ⟨p, hp, hp2⟩ :=
    find?_key_const ((subs.map (fun s => (s.id, "completed"))).reverse)
      sub.id "completed"
      (by
        intro q hq
        rw [List.mem_reverse, List.mem_map] at hq
        obtain ⟨s, _, rfl⟩ := hq
        rfl)
      ⟨(sub.id, "completed"),
        by rw [List.mem_reverse, List.mem_map]; exact ⟨sub, hsub, rfl⟩, rfl⟩
  rw [List.find?_append, hp]
  simp [hp2]

/-- A store in which submission `a` has one unreadable file (`bad`)
next to a readable one, and submission `b` reads fine. -/
def subA2 : SubmissionRec := ⟨"a", [⟨"bad", "python"⟩, fileF]⟩

def envReadFail : Env :=
  { envTwoSubs with
    listSubmissions := some [subA2, subB],
    readFile := fun _ fname => if fname = "bad" then none else some ['x'] }

/-- Witness for C2 (amended): with one of three files failing to read,
the run still completes. -/
theorem C2_file_failure_witness :
    (run_assignment_analysis envReadFail).assignmentStatus =
      some "completed" :=
  (C2_file_failure_isolation envReadFail [subA2, subB] rfl (by decide)
    (fun _ => rfl) (fun _ _ => rfl) (fun _ => rfl) (fun _ _ => rfl)).1

/-- Modelled from the spec: the combiner rule as the spec words it — "a
weighted average of the two signals (equal weights by default)", then
the maximum of that average and the structural similarity, clamped to
[0,1] — written down only to compare against the source's rule. -/
def combined_similarity_spec_equal
    (semantic_similarity structural_similarity : ℚ) : ℚ :=
  min (max ((semantic_similarity + structural_similarity) / 2)
    structural_similarity) 1

/-- Both submissions' files canonicalize to the empty string (pure `#`
comment), so the structural similarity is `0`, and the semantic
provider reports `1/2`. -/
def envHalfSim : Env :=
  { envTwoSubs with
    readFile := fun _ _ => some ['#', 'x'],
    embedSim := fun _ _ => 1/2 }

/-- **C3 counterexample.** The source's weights are `0.4`
(semantic) / `0.6` (structural), not equal: with structural similarity
`0` and semantic similarity `1/2` the run persists `0.2`, whereas the
claimed equal-weight rule yields `0.25`. -/
theorem C3_counterexample :
    (run_assignment_analysis envHalfSim).pairRows =
      [⟨"a", "b", 1/5, "completed"⟩] ∧
    combined_similarity_spec_equal (1/2) 0 = 1/4 ∧
    (1/5 : ℚ) ≠ 1/4 :=
  ⟨by with_unfolding_all decide, by with_unfolding_all decide,
    by with_unfolding_all decide⟩

/-- The score field of any `mkPairRow` has the source's combining
shape: `min(max(0.4·e + 0.6·w, w), 1)` for some semantic score `e` and
structural similarity `w ∈ [0,1]`. -/
theorem mkPairRow_score_form (env : Env) (m : List (String × Finset ℕ))
    (ids : List String) (p : SubmissionRec × SubmissionRec) :
    ∃ e w : ℚ, 0 ≤ w ∧ w ≤ 1 ∧
      (mkPairRow env m ids p).similarity_score =
        min (combined_similarity e w) 1 := by
  cases h1 : dictLookup m p.1.id with
  | none =>
    refine ⟨(if p.1.id ∈ ids ∧ p.2.id ∈ ids then env.embedSim p.1.id p.2.id
      else 0), 0, le_refl 0, by norm_num, ?_⟩
    unfold mkPairRow
    rw [h1]
  | some fa =>
    cases h2 : dictLookup m p.2.id with
    | none =>
      refine ⟨(if p.1.id ∈ ids ∧ p.2.id ∈ ids then env.embedSim p.1.id p.2.id
        else 0), 0, le_refl 0, by norm_num, ?_⟩
      unfold mkPairRow
      rw [h1, h2]
    | some fb =>
      refine ⟨(if p.1.id ∈ ids ∧ p.2.id ∈ ids then env.embedSim p.1.id p.2.id
        else 0), WinnowingService.compute_similarity fa fb,
        WinnowingService.compute_similarity_nonneg fa fb,
        WinnowingService.compute_similarity_le_one fa fb, ?_⟩
      unfold mkPairRow
      rw [h1, h2]


/-! ### Lookup lemmas for C4 -/

theorem pairsOf_mem {α : Type} :
    ∀ (l : List α) (p : α × α), p ∈ pairsOf l → p.1 ∈ l ∧ p.2 ∈ l := by
  intro l
  induction l with
  | nil => intro p hp; cases hp
  | cons x xs ih =>
    intro p hp
    unfold pairsOf at hp
    rcases List.mem_append.mp hp with hp | hp
    · rw [List.mem_map] at hp
      obtain ⟨y, hy, rfl⟩ := hp
      exact ⟨List.mem_cons_self x xs, List.mem_cons_of_mem x hy⟩
    · obtain ⟨h1, h2⟩ := ih p hp
      exact ⟨List.mem_cons_of_mem x h1, List.mem_cons_of_mem x h2⟩

theorem dictLookup_fpsMapOf (env : Env) :
    ∀ (subs : List SubmissionRec),
      (subs.map (fun s => s.id)).Nodup →
      ∀ a ∈ subs, dictLookup (fpsMapOf env subs) a.id =
        some (subFps env a) := by
  intro subs
  induction subs with
  | nil => intro _ a ha; cases ha
  | cons s subs ih =>
    intro hnd a ha
    unfold dictLookup fpsMapOf
    rw [List.map_cons, List.reverse_cons, List.find?_append]
    rcases List.mem_cons.mp ha with rfl | ha'
    · have hnone : (List.map (fun t => (t.id, subFps env t)) subs).reverse.find?
          (fun q => q.1 == a.id) = none := by
        rw [List.find?_eq_none]
        intro x hx
        rw [List.mem_reverse, List.mem_map] at hx
        obtain ⟨t, ht, rfl⟩ := hx
        have hnotin : a.id ∉ subs.map (fun u => u.id) :=
          (List.nodup_cons.mp (by simpa using hnd)).1
        simp only [beq_iff_eq]
        intro heq
        exact hnotin (heq ▸ List.mem_map.mpr ⟨t, ht, rfl⟩)
      rw [hnone]
      simp [Option.or]
    · have hrec := ih (List.Nodup.of_cons (by simpa using hnd)) a ha'
      unfold dictLookup fpsMapOf at hrec
      rcases Option.map_eq_some'.mp hrec with ⟨q, hq, _⟩
      rw [hq]
      simp only [Option.or]
      rw [← hq]
      exact hrec

theorem mem_embIdsOf (env : Env) (subs : List SubmissionRec)
    (hnd : (subs.map (fun s => s.id)).Nodup) (a : SubmissionRec)
    (ha : a ∈ subs) :
    a.id ∈ embIdsOf env subs ↔ subCodes env a ≠ [] := by
  unfold embIdsOf
  constructor
  · intro h
    rw [List.mem_map] at h
    obtain ⟨s, hs, hid⟩ := h
    rw [List.mem_filter] at hs
    obtain ⟨hsl, hpred⟩ := hs
    have hsa : s = a :=
      List.inj_on_of_nodup_map hnd hsl ha hid
    rw [← hsa]
    simpa using hpred
  · intro h
    rw [List.mem_map]
    refine ⟨a, List.mem_filter.mpr ⟨ha, by simpa using h⟩, rfl⟩

open WinnowingService in
/-- **C3 (amended).** In a run whose store writes, embedding calls and
pair updates succeed, with distinct submission ids: every enumerated
pair `(a, b)` gets a persisted row with status `completed` whose
similarity score equals
`min(max(0.4·semantic + 0.6·structural, structural), 1)` computed from
*that pair's actual signals* — the semantic signal is the source's
`embedding_similarity` (the external model's score when both
submissions have embeddings, `0` otherwise) and the structural signal
is the Jaccard similarity of the two submissions' accumulated
fingerprint unions — so the weights are `0.4`/`0.6`, not equal; and
the persisted value lies in `[0,1]`. -/
theorem C3_persisted_score (env : Env) (subs : List SubmissionRec)
    (h : env.listSubmissions = some subs) (hlen : 2 ≤ subs.length)
    (hA : ∀ s, env.updateAssignmentOk s = true)
    (hS : ∀ id s, env.updateSubmissionOk id s = true)
    (hE : ∀ c, env.getEmbeddingOk c = true)
    (hP : ∀ a b, env.updatePairOk a b = true)
    (hnd : (subs.map (fun s => s.id)).Nodup)
    (a b : SubmissionRec) (hab : (a, b) ∈ pairsOf subs) :
    ∃ r ∈ (run_assignment_analysis env).pairRows,
      r.submission_a_id = a.id ∧ r.submission_b_id = b.id ∧
      r.status = "completed" ∧
      r.similarity_score =
        min (max
          ((if a.id ∈ embIdsOf env subs ∧ b.id ∈ embIdsOf env subs then
              env.embedSim a.id b.id else 0) * (4/10) +
            compute_similarity (subFps env a) (subFps env b) * (6/10))
          (compute_similarity (subFps env a) (subFps env b))) 1 ∧
      0 ≤ r.similarity_score ∧ r.similarity_score ≤ 1 := by
  have hrun := run_ok_characterization env subs h (by omega) hA hS hE hP
  rw [hrun]
  obtain ⟨hamem, hbmem⟩ := pairsOf_mem subs (a, b) hab
  have hla := dictLookup_fpsMapOf env subs hnd a hamem
  have hlb := dictLookup_fpsMapOf env subs hnd b hbmem
  have hW0 := compute_similarity_nonneg (subFps env a) (subFps env b)
  have hW1 := compute_similarity_le_one (subFps env a) (subFps env b)
  have hsim : (mkPairRow env (fpsMapOf env subs) (embIdsOf env subs)
      (a, b)).similarity_score =
      min (combined_similarity
        (if a.id ∈ embIdsOf env subs ∧ b.id ∈ embIdsOf env subs then
          env.embedSim a.id b.id else 0)
        (compute_similarity (subFps env a) (subFps env b))) 1 := by
    simp only [mkPairRow, hla, hlb]
  refine ⟨mkPairRow env (fpsMapOf env subs) (embIdsOf env subs) (a, b),
    List.mem_map.mpr ⟨(a, b), hab, rfl⟩, rfl, rfl, rfl, ?_, ?_, ?_⟩
  · exact hsim
  · rw [hsim]
    exact le_min (le_trans hW0 (le_max_right _ _)) (by norm_num)
  · rw [hsim]
    exact min_le_right _ 1

open WinnowingService in
/-- Witness for C3 (amended) at the store where the semantic provider
scores the pair `1/2` and both canonical texts are empty: the
persisted score is pinned to `min(max(0.5·0.4 + 0·0.6, 0), 1) = 0.2`
by the theorem's equation over the pair's actual signals. -/
theorem C3_persisted_score_witness :
    ∃ r ∈ (run_assignment_analysis envHalfSim).pairRows,
      r.submission_a_id = subA.id ∧ r.submission_b_id = subB.id ∧
      r.status = "completed" ∧
      r.similarity_score =
        min (max
          ((if subA.id ∈ embIdsOf envHalfSim [subA, subB] ∧
              subB.id ∈ embIdsOf envHalfSim [subA, subB] then
              envHalfSim.embedSim subA.id subB.id else 0) * (4/10) +
            compute_similarity (subFps envHalfSim subA)
              (subFps envHalfSim subB) * (6/10))
          (compute_similarity (subFps envHalfSim subA)
            (subFps envHalfSim subB))) 1 ∧
      0 ≤ r.similarity_score ∧ r.similarity_score ≤ 1 :=
  C3_persisted_score envHalfSim [subA, subB] rfl (by decide)
    (fun _ => rfl) (fun _ _ => rfl) (fun _ => rfl) (fun _ _ => rfl)
    (by decide) subA subB (by decide)

/-- Both submissions' single files are byte-identical, but their shared
content is a pure comment, so the canonical form is empty. -/
def envSharp : Env := { envTwoSubs with readFile := fun _ _ => some ['#', 'x'] }

open WinnowingService in
/-- **C4 counterexample.** Two byte-identical submissions whose shared
content canonicalizes to the empty string: their fingerprint sets are
both empty, the structural similarity is `0`, and the persisted
combined similarity is `0 < 0.95` — the "identical after
canonicalization ⇒ combined ≥ 0.95" scenario fails when the canonical
form is empty. -/
theorem C4_counterexample :
    envSharp.readFile "a" "f" = envSharp.readFile "b" "f" ∧
    preprocess ['#', 'x'] = [] ∧
    (run_assignment_analysis envSharp).pairRows =
      [⟨"a", "b", 0, "completed"⟩] ∧
    ¬ (19/20 : ℚ) ≤ 0 :=
  ⟨rfl, by decide, by with_unfolding_all decide,
    by with_unfolding_all decide⟩

open WinnowingService in
/-- **C4 (amended).** In a run whose store writes, embedding calls and
pair updates succeed, with distinct submission ids: every enumerated
pair gets a persisted row with status `completed` whose score is at
least the structural (fingerprint) similarity of the pair; when either
submission has no readable files (the semantic signal is unavailable)
the score equals the structural similarity exactly, and the pair is
still `completed`; and when the two fingerprint unions are identical
and non-empty (byte-identical non-empty canonical content) the score
is at least `0.95` regardless of the semantic score. -/
theorem C4_fallback_dominance (env : Env) (subs : List SubmissionRec)
    (h : env.listSubmissions = some subs) (hlen : 2 ≤ subs.length)
    (hA : ∀ s, env.updateAssignmentOk s = true)
    (hS : ∀ id s, env.updateSubmissionOk id s = true)
    (hE : ∀ c, env.getEmbeddingOk c = true)
    (hP : ∀ a b, env.updatePairOk a b = true)
    (hnd : (subs.map (fun s => s.id)).Nodup)
    (a b : SubmissionRec) (hab : (a, b) ∈ pairsOf subs) :
    ∃ r ∈ (run_assignment_analysis env).pairRows,
      r.submission_a_id = a.id ∧ r.submission_b_id = b.id ∧
      r.status = "completed" ∧
      compute_similarity (subFps env a) (subFps env b) ≤
        r.similarity_score ∧
      ((subCodes env a = [] ∨ subCodes env b = []) →
        r.similarity_score =
          compute_similarity (subFps env a) (subFps env b)) ∧
      (subFps env a = subFps env b ∧ subFps env a ≠ ∅ →
        19/20 ≤ r.similarity_score) := by
  have hrun := run_ok_characterization env subs h (by omega) hA hS hE hP
  rw [hrun]
  obtain ⟨hamem, hbmem⟩ := pairsOf_mem subs (a, b) hab
  have hla := dictLookup_fpsMapOf env subs hnd a hamem
  have hlb := dictLookup_fpsMapOf env subs hnd b hbmem
  have hW0 := compute_similarity_nonneg (subFps env a) (subFps env b)
  have hW1 := compute_similarity_le_one (subFps env a) (subFps env b)
  have hsim : (mkPairRow env (fpsMapOf env subs) (embIdsOf env subs)
      (a, b)).similarity_score =
      min (combined_similarity
        (if a.id ∈ embIdsOf env subs ∧ b.id ∈ embIdsOf env subs then
          env.embedSim a.id b.id else 0)
        (compute_similarity (subFps env a) (subFps env b))) 1 := by
    simp only [mkPairRow, hla, hlb]
  refine ⟨mkPairRow env (fpsMapOf env subs) (embIdsOf env subs) (a, b),
    List.mem_map.mpr ⟨(a, b), hab, rfl⟩, rfl, rfl, rfl, ?_, ?_, ?_⟩
  · rw [hsim]
    exact le_min (le_max_right _ _) hW1
  · intro hemp
    have hnoE : ¬ (a.id ∈ embIdsOf env subs ∧ b.id ∈ embIdsOf env subs) := by
      rcases hemp with hce | hce
      · intro hcontra
        exact (mem_embIdsOf env subs hnd a hamem).mp hcontra.1 hce
      · intro hcontra
        exact (mem_embIdsOf env subs hnd b hbmem).mp hcontra.2 hce
    rw [hsim, if_neg hnoE]
    unfold combined_similarity
    rw [max_eq_right (by linarith), min_eq_left hW1]
  · rintro ⟨heq, hne⟩
    have hW : compute_similarity (subFps env a) (subFps env b) = 1 :=
      (compute_similarity_eq_one_iff _ _).mpr ⟨heq, hne⟩
    rw [hsim]
    have h1 : (1 : ℚ) ≤ combined_similarity
        (if a.id ∈ embIdsOf env subs ∧ b.id ∈ embIdsOf env subs then
          env.embedSim a.id b.id else 0)
        (compute_similarity (subFps env a) (subFps env b)) :=
      hW ▸ le_max_right _ _
    rw [min_eq_right h1]
    norm_num

open WinnowingService in
/-- Witness for C4 (amended): the all-success two-submission store with
byte-identical non-empty files. -/
theorem C4_fallback_dominance_witness :
    ∃ r ∈ (run_assignment_analysis envTwoSubs).pairRows,
      r.submission_a_id = subA.id ∧ r.submission_b_id = subB.id ∧
      r.status = "completed" ∧
      compute_similarity (subFps envTwoSubs subA) (subFps envTwoSubs subB) ≤
        r.similarity_score ∧
      ((subCodes envTwoSubs subA = [] ∨ subCodes envTwoSubs subB = []) →
        r.similarity_score =
          compute_similarity (subFps envTwoSubs subA)
            (subFps envTwoSubs subB)) ∧
      (subFps envTwoSubs subA = subFps envTwoSubs subB ∧
          subFps envTwoSubs subA ≠ ∅ →
        19/20 ≤ r.similarity_score) :=
  C4_fallback_dominance envTwoSubs [subA, subB] rfl (by decide)
    (fun _ => rfl) (fun _ _ => rfl) (fun _ => rfl) (fun _ _ => rfl)
    (by decide) subA subB (by decide)

end CodeGuard
